import Mathlib

/-
Verification of svc2influxdb (src/svc2influxdb.py): a shallow embedding of the
collector pipeline — configuration loading, the series builders, the pool and
volume collectors, and the orchestration loop — together with theorems about
the claims of the specification.

Python dictionaries are modelled as insertion-ordered association lists; every
dict Python actually constructs has unique keys, which appears as an explicit
hypothesis where a lemma needs it.  Python exceptions (ValueError from int(),
KeyError from missing dict keys, IndexError from short csv rows) are modelled
with Except.
-/

/-- A Python dict with string keys and string values, as an insertion-ordered
association list. -/
abbrev Dict := List (String × String)

/-- Python `d[k] = v`: if the key is present the value is overwritten in place
(the entry keeps its position), otherwise the pair is appended at the end. -/
def setItem (d : Dict) (k v : String) : Dict :=
  if d.any (fun p => p.1 == k) then
    d.map (fun p => if p.1 == k then (k, v) else p)
  else d ++ [(k, v)]

/-- Python `d.update(kvs)`: apply `setItem` for each pair in order.  Applied to
the pair list of a dict comprehension this agrees with Python, because a later
duplicate key overwrites in place exactly as the comprehension would. -/
def updateDict (d : Dict) (kvs : List (String × String)) : Dict :=
  kvs.foldl (fun acc p => setItem acc p.1 p.2) d

/-- A dict built from scratch out of a sequence of key-value pairs (a dict
comprehension, or the copy loop `for key, value in tags.items()` of
`_build_series`). -/
def fromPairs (kvs : List (String × String)) : Dict := updateDict [] kvs

/-- ASCII decimal digit test, as used by Python `int()` on string input. -/
def isPyDigit (c : Char) : Bool := Char.toNat '0' ≤ c.toNat && c.toNat ≤ Char.toNat '9'

/-- Numeric value of an ASCII digit. -/
def digitVal (c : Char) : Nat := c.toNat - Char.toNat '0'

/-- Digit run of a Python integer literal: decimal digits, where a single
underscore may stand between two digits (CPython int() grammar). -/
def digitsCore : Nat → List Char → Option Nat
  | acc, [] => some acc
  | acc, c :: rest =>
    if isPyDigit c then digitsCore (acc * 10 + digitVal c) rest
    else if c == '_' then
      match rest with
      | [] => none
      | c2 :: rest2 =>
        if isPyDigit c2 then digitsCore (acc * 10 + digitVal c2) rest2 else none
    else none

/-- Whitespace stripped by Python `int()` around the number (ASCII subset). -/
def isPySpace (c : Char) : Bool :=
  c == ' ' || c == '\t' || c == '\n' || c == '\r' || c == '\x0b' || c == '\x0c'

/-- A nonempty digit run (with optional internal underscores). -/
def parseDigits : List Char → Option Nat
  | [] => none
  | c :: rest => if isPyDigit c then digitsCore (digitVal c) rest else none

/-- Python `int(s)` on a string: strip surrounding whitespace, optional sign,
then a nonempty run of decimal digits; `none` models the ValueError that the
spec calls ParseError. -/
def pyInt (s : String) : Option Int :=
  let cs := ((s.data.dropWhile isPySpace).reverse.dropWhile isPySpace).reverse
  match cs with
  | '+' :: rest => (parseDigits rest).map (fun n => Int.ofNat n)
  | '-' :: rest => (parseDigits rest).map (fun n => -(Int.ofNat n : Int))
  | rest => (parseDigits rest).map (fun n => Int.ofNat n)

/-- The Python exceptions the pipeline can raise: ValueError from `int()` (the
spec's ParseError), KeyError from a missing dict key, IndexError from a short
csv row in `_get_volume_details`. -/
inductive PyErr where
  | valueError (s : String)
  | keyError (k : String)
  | indexError
deriving DecidableEq

deriving instance DecidableEq for Except

/-- One normalized series record as built by `SeriesBuilder._build_series`:
`{'measurement': ..., 'tags': {...}, 'fields': {'value': int(value)}}`, plus
the optional `'time'` entry. -/
structure SeriesPoint where
  measurement : String
  tags : Dict
  fields : List (String × Int)
  time : Option Int
deriving DecidableEq

/-- State of a `SeriesBuilder` object (the unused `_command` field is omitted):
`_extras_tags`, `_fixed_time`, `_measurements`, `_tags`. -/
structure SeriesBuilder where
  extras_tags : Dict
  fixed_time : Option Int
  measurements : List String
  tags : List String
deriving DecidableEq

/-- The `'time'` entry produced by `if self._fixed_time: ... int(self._fixed_time)`:
Python truthiness drops the timestamp both when it is None and when it is 0. -/
def pyTime : Option Int → Option Int
  | some t => if t = 0 then none else some t
  | none => none

/-- `SeriesBuilder._build_series`: build one record; `int(value)` may raise
ValueError; the tags dict is copied entry by entry into a fresh dict. -/
def SeriesBuilder.buildSeries (b : SeriesBuilder) (measurement : String)
    (tags : Dict) (value : String) (pref : String) : Except PyErr SeriesPoint :=
  match pyInt value with
  | none => Except.error (PyErr.valueError value)
  | some n =>
      Except.ok ⟨pref ++ "_" ++ measurement, fromPairs tags, [("value", n)],
        pyTime b.fixed_time⟩

/-- The dict comprehension `{tag: data[tag] for tag in self._tags}` of
`SeriesBuilder.parse`, as the ordered pair list it inserts; the first missing
tag raises KeyError. -/
def tagComprehension (data : Dict) : List String → Except PyErr (List (String × String))
  | [] => Except.ok []
  | t :: ts =>
    match List.lookup t data with
    | none => Except.error (PyErr.keyError t)
    | some v =>
      match tagComprehension data ts with
      | Except.error e => Except.error e
      | Except.ok rest => Except.ok ((t, v) :: rest)

/-- The loop of `SeriesBuilder.parse` over `self._measurements`, threading the
mutable local `merged_tags`.  A measurement absent from the row is skipped; a
present one first merges the row tags into `merged_tags` (KeyError on a
missing tag), then builds the record from `data[measurement]`. -/
def SeriesBuilder.parseLoop (b : SeriesBuilder) (data : Dict) (pref : String) :
    Dict → List String → Except PyErr (List SeriesPoint)
  | _, [] => Except.ok []
  | merged, m :: ms =>
    match List.lookup m data with
    | none => b.parseLoop data pref merged ms
    | some v =>
      match tagComprehension data b.tags with
      | Except.error e => Except.error e
      | Except.ok pairs =>
        let merged2 := updateDict merged pairs
        match b.buildSeries m merged2 v pref with
        | Except.error e => Except.error e
        | Except.ok pt =>
          match b.parseLoop data pref merged2 ms with
          | Except.error e => Except.error e
          | Except.ok rest => Except.ok (pt :: rest)

/-- `SeriesBuilder.parse`: `merged_tags = self._extras_tags.copy()` then the
loop over the measurement names. -/
def SeriesBuilder.parse (b : SeriesBuilder) (data : Dict) (pref : String) :
    Except PyErr (List SeriesPoint) :=
  b.parseLoop data pref b.extras_tags b.measurements

/-- `SeriesBuilder.add_extras_tags`: replaces the stored extra tags. -/
def SeriesBuilder.addExtrasTags (b : SeriesBuilder) (tags : Dict) : SeriesBuilder :=
  ⟨tags, b.fixed_time, b.measurements, b.tags⟩

/-- `parse` as a state transition on the builder object: the method body
contains no assignment to `self`, so the builder state is returned unchanged
alongside the result. -/
def SeriesBuilder.parseSt (b : SeriesBuilder) (data : Dict) (pref : String) :
    Except PyErr (List SeriesPoint) × SeriesBuilder :=
  (b.parse data pref, b)

/-- `PoolSeriesBuilder.__init__`. -/
def poolSeriesBuilder (fixed_time : Option Int) : SeriesBuilder :=
  ⟨[], fixed_time,
    ["capacity", "virtual_capacity", "compression_compressed_capacity",
     "compression_uncompressed_capacity", "overallocation", "vdisk_count",
     "compression_virtual_capacity", "free_capacity", "real_capacity",
     "used_capacity"],
    ["name", "id"]⟩

/-- `VolumeSeriesBuilder.__init__`. -/
def volumeSeriesBuilder (fixed_time : Option Int) : SeriesBuilder :=
  ⟨[], fixed_time,
    ["capacity", "virtual_capacity", "used_capacity", "real_capacity",
     "free_capacity", "uncompressed_used_capacity"],
    ["name", "id", "vdisk_UID"]⟩

/-- Split a character list at every comma, keeping empty fields, exactly as
the csv reader tokenizes one plain (unquoted) comma-delimited line. -/
def splitCommaChars : List Char → List (List Char)
  | [] => [[]]
  | c :: rest =>
    if c = ',' then [] :: splitCommaChars rest
    else
      match splitCommaChars rest with
      | [] => [[c]]
      | w :: ws => (c :: w) :: ws

/-- Comma-splitting on strings (`"a,b".split(",") = ["a", "b"]`). -/
def splitComma (s : String) : List String :=
  (splitCommaChars s.data).map (fun cs => String.mk cs)

/-- One line of comma-delimited appliance output as the row `csv.reader`
yields for it: a blank line gives the empty row, otherwise the comma-separated
fields (the appliance output is plain, without csv quoting). -/
def csvRow (l : String) : List String := if l = "" then [] else splitComma l

/-- `csv.DictReader` over the output lines: the first row names the fields and
every following nonblank row is turned into a dict by zipping it with the
header (blank rows are skipped, as DictReader does). -/
def dictReader (lines : List String) : List Dict :=
  match lines with
  | [] => []
  | header :: rows =>
    ((rows.map csvRow).filter (fun r => r ≠ [])).map
      (fun r => fromPairs ((csvRow header).zip r))

/-- A Python list comprehension over fallible elements: the first exception
propagates. -/
def mapE {α β : Type} (f : α → Except PyErr β) : List α → Except PyErr (List β)
  | [] => Except.ok []
  | a :: rest =>
    match f a with
    | Except.error e => Except.error e
    | Except.ok b =>
      match mapE f rest with
      | Except.error e => Except.error e
      | Except.ok bs => Except.ok (b :: bs)

/-- `VolumeSSHCollector._get_volume_details`: the detail output is parsed by
`{line[0]: line[1] for line in reader if line}`; a nonblank row with fewer
than two fields raises IndexError. -/
def getVolumeDetails (lines : List String) : Except PyErr Dict :=
  match mapE (fun r =>
      match r with
      | a :: b :: _ => Except.ok (a, b)
      | _ => Except.error PyErr.indexError)
    ((lines.map csvRow).filter (fun r => r ≠ [])) with
  | Except.error e => Except.error e
  | Except.ok pairs => Except.ok (fromPairs pairs)

/-- `PoolSSHCollector.collect`, with the remote `lsmdiskgrp -bytes -delim ,`
output supplied as its lines: each DictReader row is passed to the builder
with prefix "pool"; note the result is a list of per-row lists of points. -/
def poolCollect (b : SeriesBuilder) (lines : List String) :
    Except PyErr (List (List SeriesPoint)) :=
  mapE (fun r => b.parse r "pool") (dictReader lines)

/-- `VolumeSSHCollector.collect`: the listing rows give the volume ids (KeyError
if the listing has no `id` column), one detail call per id (its output lines
supplied by `details`), then each detail row is parsed with prefix "volume". -/
def volumeCollect (b : SeriesBuilder) (listing : List String)
    (details : String → List String) : Except PyErr (List (List SeriesPoint)) :=
  match mapE (fun r =>
      match List.lookup "id" r with
      | none => Except.error (PyErr.keyError "id")
      | some i => getVolumeDetails (details i))
    (dictReader listing) with
  | Except.error e => Except.error e
  | Except.ok vds => mapE (fun d => b.parse d "volume") vds

/-- The InfluxDB connection settings produced by `ConfigFile.get_influxdb`. -/
structure InfluxConf where
  address : String
  username : Option String
  password : Option String
  database : String
deriving DecidableEq

/-- `ConfigFile.get_influxdb` applied to the `INFLUXDB` section: empty
`username`/`password` become None, an empty `database` falls back to
`svc2influxdb` (Python string truthiness); a missing key raises KeyError. -/
def getInfluxdb (sec : Dict) : Except PyErr InfluxConf :=
  match List.lookup "address" sec with
  | none => Except.error (PyErr.keyError "address")
  | some addr =>
    match List.lookup "username" sec with
    | none => Except.error (PyErr.keyError "username")
    | some user =>
      match List.lookup "password" sec with
      | none => Except.error (PyErr.keyError "password")
      | some pass =>
        match List.lookup "database" sec with
        | none => Except.error (PyErr.keyError "database")
        | some db =>
          Except.ok ⟨addr,
            if user ≠ "" then some user else none,
            if pass ≠ "" then some pass else none,
            if db ≠ "" then db else "svc2influxdb"⟩

/-- One appliance descriptor yielded by `ConfigFile.get_svc`. -/
structure Equipment where
  tags : Dict
  address : String
  login : String
  password : String
deriving DecidableEq

/-- The tag dict `get_svc` builds for a section: `{'svc': section}` extended
with every section item whose key is not in `['name', 'address', 'login',
'password']`. -/
def svcTags (sect : String) (kvs : Dict) : Dict :=
  kvs.foldl
    (fun acc p =>
      if p.1 ∉ ["name", "address", "login", "password"] then setItem acc p.1 p.2
      else acc)
    [("svc", sect)]

/-- `get_svc` on one configuration section: the required keys raise KeyError
when absent, the remaining items become extra tags. -/
def getSvcOne (sect : String) (kvs : Dict) : Except PyErr Equipment :=
  match List.lookup "address" kvs with
  | none => Except.error (PyErr.keyError "address")
  | some addr =>
    match List.lookup "login" kvs with
    | none => Except.error (PyErr.keyError "login")
    | some login =>
      match List.lookup "password" kvs with
      | none => Except.error (PyErr.keyError "password")
      | some password => Except.ok ⟨svcTags sect kvs, addr, login, password⟩

/-- `ConfigFile.get_svc` over all sections: every section except `INFLUXDB`
yields one appliance descriptor. -/
def getSvc (sections : List (String × Dict)) : Except PyErr (List Equipment) :=
  mapE (fun s => getSvcOne s.1 s.2) (sections.filter (fun s => s.1 ≠ "INFLUXDB"))

/-- The data one appliance contributes to a run: its configuration tags and
the remote command outputs its two collectors would read (the SSH transport is
an opaque executor; its output lines are inputs here). -/
structure Appliance where
  tags : Dict
  poolLines : List String
  volLines : List String
  volDetails : String → List String

/-- The per-appliance loop of `__main__`: set both builders' extra tags to the
appliance tags, collect pools then volumes, and append both results to the
accumulated series list; any exception aborts the whole loop. -/
def collectAll (pb vb : SeriesBuilder) : List Appliance → Except PyErr (List (List SeriesPoint))
  | [] => Except.ok []
  | a :: rest =>
    let pb2 := pb.addExtrasTags a.tags
    let vb2 := vb.addExtrasTags a.tags
    match poolCollect pb2 a.poolLines with
    | Except.error e => Except.error e
    | Except.ok ps =>
      match volumeCollect vb2 a.volLines a.volDetails with
      | Except.error e => Except.error e
      | Except.ok vs =>
        match collectAll pb2 vb2 rest with
        | Except.error e => Except.error e
        | Except.ok more => Except.ok (ps ++ vs ++ more)

/-- The batch the final write loop of `__main__` sends to InfluxDB: the
accumulated series when collection completed, and nothing at all when any
collection step raised — the write loop runs only after the whole appliance
loop has finished. -/
def writtenPoints (pb vb : SeriesBuilder) (apps : List Appliance) :
    List (List SeriesPoint) :=
  match collectAll pb vb apps with
  | Except.ok s => s
  | Except.error _ => []

/-- Decidable form of "the value at measurement name m, when present, is
integer-convertible". -/
def intableAt (data : Dict) (m : String) : Bool :=
  match List.lookup m data with
  | none => true
  | some v => (pyInt v).isSome

/-- The pair list `[(tag, row[tag]) for tag in tagNames]` restricted to the
present tags; when every tag is present this is exactly the comprehension of
`parse`. -/
def rowTagPairs (tags : List String) (data : Dict) : List (String × String) :=
  tags.filterMap (fun t => (List.lookup t data).map (fun v => (t, v)))

/-- All entries of a dict carrying key `k` hold exactly the value `v` (and the
key is present): the invariant that makes a repeated `setItem` a no-op. -/
def keyPinned (d : Dict) (k v : String) : Prop :=
  (∃ p ∈ d, p.1 = k) ∧ ∀ p ∈ d, p.1 = k → p = (k, v)

/-- Whether an Except value carries a result (Python: the statement finished
without raising). -/
def exOk {α : Type} : Except PyErr α → Bool
  | Except.ok _ => true
  | Except.error _ => false

/- Dictionary lemmas: how `List.lookup` interacts with `setItem`, `updateDict`
and `fromPairs`. -/


theorem setItem_nil (k v : String) : setItem [] k v = [(k, v)] := by
  simp [setItem]

theorem setItem_cons (qk qv k v : String) (d : Dict) :
    setItem ((qk, qv) :: d) k v =
      if qk = k then (k, v) :: d.map (fun p => if p.1 == k then (k, v) else p)
      else (qk, qv) :: setItem d k v := by
  unfold setItem
  by_cases hq : qk = k
  · subst hq
    simp [List.any_cons]
  · simp only [List.any_cons, if_neg hq,
      show (qk == k) = false from by simpa using hq, Bool.false_or]
    cases hd : d.any (fun p => p.1 == k) <;>
      simp [hd, hq, List.map_cons, show ((qk, qv).1 == k) = false from by simpa using hq]

theorem lookup_map_overwrite_ne (k v k2 : String) (h : k2 ≠ k) (d : Dict) :
    List.lookup k2 (d.map (fun p => if p.1 == k then (k, v) else p)) = List.lookup k2 d := by
  induction d with
  | nil => rfl
  | cons q d ih =>
    obtain ⟨qk, qv⟩ := q
    by_cases hq : qk = k
    · subst hq
      simp only [List.map_cons, show ((qk, qv).1 == qk) = true from by simp, if_pos]
      rw [List.lookup_cons, List.lookup_cons]
      simp only [show (k2 == qk) = false from by simpa using h]
      exact ih
    · have hfix : (if ((qk, qv).1 == k) = true then (k, v) else (qk, qv)) = (qk, qv) := by
        rw [if_neg]
        simp [hq]
      simp only [List.map_cons, hfix]
      rw [List.lookup_cons, List.lookup_cons]
      cases hk2 : k2 == qk
      · exact ih
      · rfl

theorem lookup_setItem_self (d : Dict) (k v : String) :
    List.lookup k (setItem d k v) = some v := by
  induction d with
  | nil => simp [setItem_nil]
  | cons q d ih =>
    obtain ⟨qk, qv⟩ := q
    rw [setItem_cons]
    by_cases hq : qk = k
    · subst hq
      simp
    · rw [if_neg hq, List.lookup_cons]
      simp only [show (k == qk) = false from by simpa using Ne.symm hq]
      exact ih

theorem lookup_setItem_ne (d : Dict) (k v k2 : String) (h : k2 ≠ k) :
    List.lookup k2 (setItem d k v) = List.lookup k2 d := by
  induction d with
  | nil => simp [setItem_nil, List.lookup_cons, show (k2 == k) = false from by simpa using h]
  | cons q d ih =>
    obtain ⟨qk, qv⟩ := q
    rw [setItem_cons]
    by_cases hq : qk = k
    · subst hq
      rw [if_pos rfl, List.lookup_cons, List.lookup_cons]
      simp only [show (k2 == qk) = false from by simpa using h]
      exact lookup_map_overwrite_ne qk v k2 h d
    · rw [if_neg hq, List.lookup_cons, List.lookup_cons]
      cases hk2 : k2 == qk
      · exact ih
      · rfl

theorem updateDict_nil (d : Dict) : updateDict d [] = d := rfl

theorem updateDict_cons (d : Dict) (k v : String) (kvs : List (String × String)) :
    updateDict d ((k, v) :: kvs) = updateDict (setItem d k v) kvs := rfl

theorem updateDict_append (d : Dict) (l1 l2 : List (String × String)) :
    updateDict d (l1 ++ l2) = updateDict (updateDict d l1) l2 :=
  List.foldl_append _ _ l1 l2

theorem lookup_updateDict_notmem (k : String) (kvs : List (String × String))
    (h : k ∉ kvs.map Prod.fst) :
    ∀ d : Dict, List.lookup k (updateDict d kvs) = List.lookup k d := by
  induction kvs with
  | nil => intro d; rfl
  | cons q kvs ih =>
    intro d
    obtain ⟨qk, qv⟩ := q
    have hk : k ≠ qk := by
      intro hk
      exact h (by simp [hk])
    rw [updateDict_cons, ih (fun hm => h (by simp [hm]))]
    exact lookup_setItem_ne d qk qv k hk

theorem keys_map_overwrite (d : Dict) (k v : String) :
    (d.map (fun p => if p.1 == k then (k, v) else p)).map Prod.fst = d.map Prod.fst := by
  induction d with
  | nil => rfl
  | cons q d ih =>
    obtain ⟨qk, qv⟩ := q
    by_cases hq : qk = k
    · subst hq
      simp only [List.map_cons, show ((qk, qv).1 == qk) = true from by simp, if_pos]
      rw [ih]
    · have hfix : (if ((qk, qv).1 == k) = true then (k, v) else (qk, qv)) = (qk, qv) := by
        rw [if_neg]
        simp [hq]
      simp only [List.map_cons, hfix]
      rw [ih]

theorem keys_setItem (d : Dict) (k v : String) :
    (setItem d k v).map Prod.fst =
      if d.any (fun p => p.1 == k) then d.map Prod.fst else d.map Prod.fst ++ [k] := by
  unfold setItem
  cases hany : d.any (fun p => p.1 == k)
  · simp
  · simp [keys_map_overwrite]
    intro a b hab
    by_cases hak : a = k
    · subst hak
      simp
    · simp [hak]

theorem nodupKeys_setItem (d : Dict) (k v : String)
    (h : (d.map Prod.fst).Nodup) : ((setItem d k v).map Prod.fst).Nodup := by
  rw [keys_setItem]
  cases hany : d.any (fun p => p.1 == k)
  · have hnot : k ∉ d.map Prod.fst := by
      intro hk
      obtain ⟨p, hp, hpk⟩ := List.mem_map.mp hk
      rw [List.any_eq_false] at hany
      exact hany p hp (by simpa using hpk)
    simp [List.nodup_append, h, hnot]
  · simpa using h

theorem nodupKeys_updateDict (kvs : List (String × String)) :
    ∀ d : Dict, (d.map Prod.fst).Nodup → ((updateDict d kvs).map Prod.fst).Nodup := by
  induction kvs with
  | nil => intro d h; exact h
  | cons q kvs ih =>
    intro d h
    rw [show updateDict d (q :: kvs) = updateDict (setItem d q.1 q.2) kvs from rfl]
    exact ih _ (nodupKeys_setItem d q.1 q.2 h)

theorem updateDict_cons_notmem (k v : String) (kvs : List (String × String))
    (h : k ∉ kvs.map Prod.fst) :
    ∀ d : Dict, updateDict ((k, v) :: d) kvs = (k, v) :: updateDict d kvs := by
  induction kvs with
  | nil => intro d; rfl
  | cons q kvs ih =>
    intro d
    obtain ⟨qk, qv⟩ := q
    have hk : k ≠ qk := by
      intro hk
      exact h (by simp [hk])
    rw [updateDict_cons, setItem_cons, if_neg hk, updateDict_cons]
    exact ih (fun hm => h (by simp [hm])) (setItem d qk qv)

theorem fromPairs_eq_self (d : Dict) (h : (d.map Prod.fst).Nodup) : fromPairs d = d := by
  induction d with
  | nil => rfl
  | cons q d ih =>
    obtain ⟨qk, qv⟩ := q
    have hq : qk ∉ d.map Prod.fst := by
      simp only [List.map_cons, List.nodup_cons] at h
      exact h.1
    have hd : (d.map Prod.fst).Nodup := by
      simp only [List.map_cons, List.nodup_cons] at h
      exact h.2
    show updateDict (setItem [] qk qv) d = (qk, qv) :: d
    rw [setItem_nil, updateDict_cons_notmem qk qv d hq]
    exact congrArg (List.cons (qk, qv)) (ih hd)

theorem mem_setItem_of_ne (d : Dict) (k v : String) (p : String × String)
    (hp : p ∈ d) (hne : p.1 ≠ k) : p ∈ setItem d k v := by
  unfold setItem
  cases hany : d.any (fun q => q.1 == k)
  · simp only [Bool.false_eq_true, if_neg]
    exact List.mem_append_of_mem_left _ hp
  · simp only [if_pos]
    refine List.mem_map.mpr ⟨p, hp, ?_⟩
    rw [if_neg]
    simp [hne]

theorem of_mem_setItem (d : Dict) (k v : String) (q : String × String)
    (hq : q ∈ setItem d k v) : q = (k, v) ∨ (q ∈ d ∧ q.1 ≠ k) := by
  unfold setItem at hq
  cases hany : d.any (fun p => p.1 == k) <;> rw [hany] at hq
  · simp only [Bool.false_eq_true, if_neg] at hq
    rcases List.mem_append.mp hq with hq | hq
    · right
      refine ⟨hq, ?_⟩
      intro hqk
      rw [List.any_eq_false] at hany
      exact hany q hq (by simpa using hqk)
    · left
      simpa using hq
  · simp only [if_pos] at hq
    obtain ⟨p, hp, hfp⟩ := List.mem_map.mp hq
    by_cases hpk : p.1 = k
    · left
      rw [← hfp, if_pos (by simpa using hpk)]
    · right
      rw [← hfp, if_neg (by simpa using hpk)]
      exact ⟨hp, hpk⟩

theorem keyPinned_setItem_self (d : Dict) (k v : String) : keyPinned (setItem d k v) k v := by
  constructor
  · induction d with
    | nil => exact ⟨(k, v), by simp [setItem_nil], rfl⟩
    | cons q d ih =>
      obtain ⟨qk, qv⟩ := q
      rw [setItem_cons]
      by_cases hq : qk = k
      · subst hq
        exact ⟨(qk, v), by simp, rfl⟩
      · rw [if_neg hq]
        obtain ⟨p, hp, hpk⟩ := ih
        exact ⟨p, List.mem_cons_of_mem _ hp, hpk⟩
  · intro p hp hpk
    rcases of_mem_setItem d k v p hp with h | h
    · exact h
    · exact absurd hpk h.2

theorem keyPinned_setItem_of (d : Dict) (k v k2 v2 : String)
    (h : keyPinned d k v) (hcond : k2 = k → v2 = v) :
    keyPinned (setItem d k2 v2) k v := by
  by_cases hk : k2 = k
  · subst hk
    rw [hcond rfl]
    exact keyPinned_setItem_self d k2 v
  · constructor
    · obtain ⟨p, hp, hpk⟩ := h.1
      refine ⟨p, mem_setItem_of_ne d k2 v2 p hp ?_, hpk⟩
      rw [hpk]
      exact fun hkk => hk hkk.symm
    · intro q hq hqk
      rcases of_mem_setItem d k2 v2 q hq with h2 | h2
      · rw [h2] at hqk
        exact absurd hqk.symm (fun hkk => hk hkk.symm)
      · exact h.2 q h2.1 hqk

theorem keyPinned_updateDict (kvs : List (String × String)) (k v : String)
    (hkvs : ∀ p ∈ kvs, p.1 = k → p.2 = v) :
    ∀ d : Dict, keyPinned d k v → keyPinned (updateDict d kvs) k v := by
  induction kvs with
  | nil => intro d h; exact h
  | cons q kvs ih =>
    intro d h
    rw [show updateDict d (q :: kvs) = updateDict (setItem d q.1 q.2) kvs from rfl]
    refine ih (fun p hp => hkvs p (List.mem_cons_of_mem _ hp)) _ ?_
    refine keyPinned_setItem_of d k v q.1 q.2 h ?_
    intro hqk
    exact hkvs q (List.mem_cons_self _ _) hqk

theorem setItem_eq_self_of_keyPinned (d : Dict) (k v : String)
    (h : keyPinned d k v) : setItem d k v = d := by
  unfold setItem
  obtain ⟨p, hp, hpk⟩ := h.1
  rw [if_pos (List.any_eq_true.mpr ⟨p, hp, by simpa using hpk⟩)]
  have : ∀ q ∈ d, (if q.1 == k then (k, v) else q) = q := by
    intro q hq
    by_cases hqk : q.1 = k
    · rw [if_pos (by simpa using hqk)]
      exact (h.2 q hq hqk).symm
    · rw [if_neg (by simpa using hqk)]
  rw [List.map_congr_left this]
  simp

theorem lookup_eq_of_keyPinned (k v : String) :
    ∀ d : Dict, keyPinned d k v → List.lookup k d = some v := by
  intro d
  induction d with
  | nil => intro h; obtain ⟨p, hp, _⟩ := h.1; simp at hp
  | cons q d ih =>
    intro h
    obtain ⟨qk, qv⟩ := q
    by_cases hq : qk = k
    · have : (qk, qv) = (k, v) := h.2 _ (List.mem_cons_self _ _) hq
      rw [this]
      simp
    · rw [List.lookup_cons]
      simp only [show (k == qk) = false from by simpa using Ne.symm hq]
      refine ih ⟨?_, ?_⟩
      · obtain ⟨p, hp, hpk⟩ := h.1
        rcases List.mem_cons.mp hp with rfl | hp2
        · exact absurd hpk hq
        · exact ⟨p, hp2, hpk⟩
      · intro p hp hpk
        exact h.2 p (List.mem_cons_of_mem _ hp) hpk

theorem updateDict_idem (kvs : List (String × String))
    (hfun : ∀ p ∈ kvs, ∀ q ∈ kvs, p.1 = q.1 → p.2 = q.2) :
    ∀ d : Dict, updateDict (updateDict d kvs) kvs = updateDict d kvs := by
  induction kvs with
  | nil => intro d; rfl
  | cons q kvs ih =>
    intro d
    obtain ⟨k, v⟩ := q
    have hkvs : ∀ p ∈ kvs, p.1 = k → p.2 = v := fun p hp hpk =>
      hfun p (List.mem_cons_of_mem _ hp) (k, v) (List.mem_cons_self _ _) hpk
    have hfun2 : ∀ p ∈ kvs, ∀ q ∈ kvs, p.1 = q.1 → p.2 = q.2 := fun p hp q hq =>
      hfun p (List.mem_cons_of_mem _ hp) q (List.mem_cons_of_mem _ hq)
    have hpin : keyPinned (updateDict (setItem d k v) kvs) k v :=
      keyPinned_updateDict kvs k v hkvs _ (keyPinned_setItem_self d k v)
    calc updateDict (updateDict d ((k, v) :: kvs)) ((k, v) :: kvs)
        = updateDict (setItem (updateDict (setItem d k v) kvs) k v) kvs := rfl
      _ = updateDict (updateDict (setItem d k v) kvs) kvs := by
            rw [setItem_eq_self_of_keyPinned _ k v hpin]
      _ = updateDict (setItem d k v) kvs := ih hfun2 (setItem d k v)
      _ = updateDict d ((k, v) :: kvs) := rfl

theorem lookup_updateDict_of_functional (kvs : List (String × String)) (k v : String)
    (hfun : ∀ p ∈ kvs, ∀ q ∈ kvs, p.1 = q.1 → p.2 = q.2)
    (hmem : (k, v) ∈ kvs) (d : Dict) :
    List.lookup k (updateDict d kvs) = some v := by
  obtain ⟨l1, l2, rfl⟩ := List.append_of_mem hmem
  rw [updateDict_append]
  apply lookup_eq_of_keyPinned
  rw [updateDict_cons]
  refine keyPinned_updateDict l2 k v ?_ _ (keyPinned_setItem_self _ k v)
  intro p hp hpk
  exact hfun p (by simp [hp]) (k, v) (by simp) hpk

theorem functional_of_nodupKeys (kvs : List (String × String))
    (h : (kvs.map Prod.fst).Nodup) :
    ∀ p ∈ kvs, ∀ q ∈ kvs, p.1 = q.1 → p.2 = q.2 := by
  intro p hp q hq hpq
  have := List.inj_on_of_nodup_map h hp hq hpq
  rw [this]

/- Lemmas about the tag comprehension and the generic comprehension `mapE`. -/

theorem tagComprehension_ok_of_present (data : Dict) (tags : List String)
    (h : ∀ t ∈ tags, (List.lookup t data).isSome = true) :
    tagComprehension data tags = Except.ok (rowTagPairs tags data) := by
  induction tags with
  | nil => rfl
  | cons t ts ih =>
    obtain ⟨v, hv⟩ := Option.isSome_iff_exists.mp (h t (List.mem_cons_self _ _))
    rw [show tagComprehension data (t :: ts) =
        (match List.lookup t data with
         | none => Except.error (PyErr.keyError t)
         | some v =>
           match tagComprehension data ts with
           | Except.error e => Except.error e
           | Except.ok rest => Except.ok ((t, v) :: rest)) from rfl]
    rw [hv, ih (fun x hx => h x (List.mem_cons_of_mem _ hx))]
    simp [rowTagPairs, List.filterMap_cons, hv]

theorem tagComprehension_ok_elim (data : Dict) (tags : List String) :
    ∀ pairs, tagComprehension data tags = Except.ok pairs →
      (∀ t ∈ tags, (List.lookup t data).isSome = true) ∧ pairs = rowTagPairs tags data := by
  induction tags with
  | nil =>
    intro pairs h
    refine ⟨by simp, ?_⟩
    rw [show tagComprehension data [] = Except.ok [] from rfl] at h
    cases h
    rfl
  | cons t ts ih =>
    intro pairs h
    rw [show tagComprehension data (t :: ts) =
        (match List.lookup t data with
         | none => Except.error (PyErr.keyError t)
         | some v =>
           match tagComprehension data ts with
           | Except.error e => Except.error e
           | Except.ok rest => Except.ok ((t, v) :: rest)) from rfl] at h
    cases hv : List.lookup t data with
    | none => rw [hv] at h; cases h
    | some v =>
      rw [hv] at h
      cases hts : tagComprehension data ts with
      | error e => rw [hts] at h; cases h
      | ok rest =>
        rw [hts] at h
        cases h
        obtain ⟨hall, hrest⟩ := ih rest hts
        constructor
        · intro x hx
          rcases List.mem_cons.mp hx with rfl | hx2
          · simp [hv]
          · exact hall x hx2
        · simp [rowTagPairs, List.filterMap_cons, hv]
          exact hrest

theorem tagComprehension_error_of_missing (data : Dict) (tags : List String)
    (h : ∃ t ∈ tags, List.lookup t data = none) :
    ∃ k, tagComprehension data tags = Except.error (PyErr.keyError k) := by
  induction tags with
  | nil => obtain ⟨t, ht, _⟩ := h; simp at ht
  | cons t ts ih =>
    rw [show tagComprehension data (t :: ts) =
        (match List.lookup t data with
         | none => Except.error (PyErr.keyError t)
         | some v =>
           match tagComprehension data ts with
           | Except.error e => Except.error e
           | Except.ok rest => Except.ok ((t, v) :: rest)) from rfl]
    cases hv : List.lookup t data with
    | none => exact ⟨t, rfl⟩
    | some v =>
      have h2 : ∃ x ∈ ts, List.lookup x data = none := by
        obtain ⟨x, hx, hxn⟩ := h
        rcases List.mem_cons.mp hx with rfl | hx2
        · rw [hv] at hxn; cases hxn
        · exact ⟨x, hx2, hxn⟩
      obtain ⟨k, hk⟩ := ih h2
      rw [hk]
      exact ⟨k, rfl⟩

theorem mem_rowTagPairs (tags : List String) (data : Dict) (p : String × String)
    (hp : p ∈ rowTagPairs tags data) : List.lookup p.1 data = some p.2 := by
  obtain ⟨t, _, hf⟩ := List.mem_filterMap.mp hp
  cases hv : List.lookup t data with
  | none => rw [hv] at hf; cases hf
  | some v =>
    rw [hv] at hf
    cases hf
    exact hv

theorem rowTagPairs_functional (tags : List String) (data : Dict) :
    ∀ p ∈ rowTagPairs tags data, ∀ q ∈ rowTagPairs tags data, p.1 = q.1 → p.2 = q.2 := by
  intro p hp q hq hpq
  have h1 := mem_rowTagPairs tags data p hp
  have h2 := mem_rowTagPairs tags data q hq
  rw [hpq] at h1
  rw [h1] at h2
  exact Option.some.inj h2

theorem mapE_ok_length {α β : Type} (f : α → Except PyErr β) :
    ∀ (l : List α) (res : List β), mapE f l = Except.ok res → res.length = l.length := by
  intro l
  induction l with
  | nil =>
    intro res h
    rw [show mapE f [] = Except.ok [] from rfl] at h
    cases h
    rfl
  | cons a l ih =>
    intro res h
    rw [show mapE f (a :: l) =
        (match f a with
         | Except.error e => Except.error e
         | Except.ok b =>
           match mapE f l with
           | Except.error e => Except.error e
           | Except.ok bs => Except.ok (b :: bs)) from rfl] at h
    cases hfa : f a with
    | error e => rw [hfa] at h; cases h
    | ok b =>
      rw [hfa] at h
      cases hrec : mapE f l with
      | error e => rw [hrec] at h; cases h
      | ok bs =>
        rw [hrec] at h
        cases h
        simp [ih bs hrec]

theorem mapE_ok_get {α β : Type} (f : α → Except PyErr β) :
    ∀ (l : List α) (res : List β), mapE f l = Except.ok res →
      ∀ i (hi : i < l.length) (hi2 : i < res.length),
        f (l.get ⟨i, hi⟩) = Except.ok (res.get ⟨i, hi2⟩) := by
  intro l
  induction l with
  | nil =>
    intro res h i hi
    simp at hi
  | cons a l ih =>
    intro res h i hi hi2
    rw [show mapE f (a :: l) =
        (match f a with
         | Except.error e => Except.error e
         | Except.ok b =>
           match mapE f l with
           | Except.error e => Except.error e
           | Except.ok bs => Except.ok (b :: bs)) from rfl] at h
    cases hfa : f a with
    | error e => rw [hfa] at h; cases h
    | ok b =>
      rw [hfa] at h
      cases hrec : mapE f l with
      | error e => rw [hrec] at h; cases h
      | ok bs =>
        rw [hrec] at h
        cases h
        cases i with
        | zero => simpa using hfa
        | succ j =>
          exact ih bs hrec j (Nat.lt_of_succ_lt_succ hi) (Nat.lt_of_succ_lt_succ hi2)

theorem mapE_not_ok_of_mem {α β : Type} (f : α → Except PyErr β) (x : α) :
    ∀ l : List α, x ∈ l → exOk (f x) = false → exOk (mapE f l) = false := by
  intro l
  induction l with
  | nil => intro hx; simp at hx
  | cons a l ih =>
    intro hx hfx
    rw [show mapE f (a :: l) =
        (match f a with
         | Except.error e => Except.error e
         | Except.ok b =>
           match mapE f l with
           | Except.error e => Except.error e
           | Except.ok bs => Except.ok (b :: bs)) from rfl]
    rcases List.mem_cons.mp hx with rfl | hx2
    · cases hfa : f x with
      | error e => rfl
      | ok b => rw [hfa] at hfx; cases hfx
    · cases hfa : f a with
      | error e => rfl
      | ok b =>
        have := ih hx2 hfx
        cases hrec : mapE f l with
        | error e => rfl
        | ok bs => rw [hrec] at this; cases this

theorem mapE_isOk_congr {α β γ : Type} (f : α → Except PyErr β) (g : α → Except PyErr γ) :
    ∀ l : List α, (∀ x ∈ l, exOk (f x) = exOk (g x)) →
      exOk (mapE f l) = exOk (mapE g l) := by
  intro l
  induction l with
  | nil => intro _; rfl
  | cons a l ih =>
    intro h
    rw [show mapE f (a :: l) =
        (match f a with
         | Except.error e => Except.error e
         | Except.ok b =>
           match mapE f l with
           | Except.error e => Except.error e
           | Except.ok bs => Except.ok (b :: bs)) from rfl,
      show mapE g (a :: l) =
        (match g a with
         | Except.error e => Except.error e
         | Except.ok b =>
           match mapE g l with
           | Except.error e => Except.error e
           | Except.ok bs => Except.ok (b :: bs)) from rfl]
    have ha := h a (List.mem_cons_self _ _)
    cases hfa : f a with
    | error e =>
      rw [hfa] at ha
      cases hga : g a with
      | error e2 => rfl
      | ok c => rw [hga] at ha; cases ha
    | ok b =>
      rw [hfa] at ha
      cases hga : g a with
      | error e2 => rw [hga] at ha; cases ha
      | ok c =>
        have htail := ih (fun x hx => h x (List.mem_cons_of_mem _ hx))
        cases hrec : mapE f l with
        | error e =>
          rw [hrec] at htail
          cases hrec2 : mapE g l with
          | error e2 => rfl
          | ok cs => rw [hrec2] at htail; cases htail
        | ok bs =>
          rw [hrec] at htail
          cases hrec2 : mapE g l with
          | error e2 => rw [hrec2] at htail; cases htail
          | ok cs => rfl

/- Lemmas about the parse loop. -/

theorem parseLoop_nil (b : SeriesBuilder) (data : Dict) (pref : String) (merged : Dict) :
    b.parseLoop data pref merged [] = Except.ok [] := rfl

theorem parseLoop_cons (b : SeriesBuilder) (data : Dict) (pref : String) (merged : Dict)
    (m : String) (ms : List String) :
    b.parseLoop data pref merged (m :: ms) =
      match List.lookup m data with
      | none => b.parseLoop data pref merged ms
      | some v =>
        match tagComprehension data b.tags with
        | Except.error e => Except.error e
        | Except.ok pairs =>
          match b.buildSeries m (updateDict merged pairs) v pref with
          | Except.error e => Except.error e
          | Except.ok pt =>
            match b.parseLoop data pref (updateDict merged pairs) ms with
            | Except.error e => Except.error e
            | Except.ok rest => Except.ok (pt :: rest) := rfl

theorem buildSeries_of_pyInt_none (b : SeriesBuilder) (m : String) (tags : Dict)
    (v pref : String) (h : pyInt v = none) :
    b.buildSeries m tags v pref = Except.error (PyErr.valueError v) := by
  simp [SeriesBuilder.buildSeries, h]

theorem buildSeries_of_pyInt_some (b : SeriesBuilder) (m : String) (tags : Dict)
    (v pref : String) (n : Int) (h : pyInt v = some n) :
    b.buildSeries m tags v pref =
      Except.ok ⟨pref ++ "_" ++ m, fromPairs tags, [("value", n)], pyTime b.fixed_time⟩ := by
  simp [SeriesBuilder.buildSeries, h]

theorem parseLoop_points_time (b : SeriesBuilder) (data : Dict) (pref : String) :
    ∀ (ms : List String) (merged : Dict) (ps : List SeriesPoint),
      b.parseLoop data pref merged ms = Except.ok ps →
      ∀ p ∈ ps, p.time = pyTime b.fixed_time := by
  intro ms
  induction ms with
  | nil =>
    intro merged ps h p hp
    rw [parseLoop_nil] at h
    cases h
    simp at hp
  | cons m ms ih =>
    intro merged ps h p hp
    rw [parseLoop_cons] at h
    cases hm : List.lookup m data with
    | none =>
      simp only [hm] at h
      exact ih merged ps h p hp
    | some v =>
      simp only [hm] at h
      cases hc : tagComprehension data b.tags with
      | error e =>
        simp only [hc] at h
        cases h
      | ok pairs =>
        simp only [hc] at h
        cases hpy : pyInt v with
        | none =>
          simp only [buildSeries_of_pyInt_none b m (updateDict merged pairs) v pref hpy] at h
          cases h
        | some n =>
          simp only [buildSeries_of_pyInt_some b m (updateDict merged pairs) v pref n hpy] at h
          cases hrec : b.parseLoop data pref (updateDict merged pairs) ms with
          | error e =>
            simp only [hrec] at h
            cases h
          | ok rest =>
            simp only [hrec] at h
            cases h
            rcases List.mem_cons.mp hp with rfl | hp2
            · rfl
            · exact ih _ rest hrec p hp2

theorem parseLoop_names (b : SeriesBuilder) (data : Dict) (pref : String)
    (htags : ∀ t ∈ b.tags, (List.lookup t data).isSome = true) :
    ∀ ms : List String, (∀ m ∈ ms, intableAt data m = true) →
      ∀ merged : Dict, ∃ ps, b.parseLoop data pref merged ms = Except.ok ps ∧
        ps.map SeriesPoint.measurement =
          (ms.filter (fun m => (List.lookup m data).isSome)).map (fun m => pref ++ "_" ++ m) := by
  intro ms
  induction ms with
  | nil => intro _ merged; exact ⟨[], rfl, rfl⟩
  | cons m ms ih =>
    intro hall merged
    cases hm : List.lookup m data with
    | none =>
      obtain ⟨ps, hps, hnames⟩ := ih (fun x hx => hall x (List.mem_cons_of_mem _ hx)) merged
      refine ⟨ps, ?_, ?_⟩
      · rw [parseLoop_cons]
        simp only [hm]
        exact hps
      · rw [List.filter_cons, hm]
        simpa using hnames
    | some v =>
      have hint : intableAt data m = true := hall m (List.mem_cons_self _ _)
      rw [intableAt, hm] at hint
      simp only at hint
      obtain ⟨n, hn⟩ := Option.isSome_iff_exists.mp hint
      obtain ⟨ps, hps, hnames⟩ :=
        ih (fun x hx => hall x (List.mem_cons_of_mem _ hx))
          (updateDict merged (rowTagPairs b.tags data))
      refine ⟨⟨pref ++ "_" ++ m, fromPairs (updateDict merged (rowTagPairs b.tags data)),
        [("value", n)], pyTime b.fixed_time⟩ :: ps, ?_, ?_⟩
      · rw [parseLoop_cons]
        simp only [hm, tagComprehension_ok_of_present data b.tags htags,
          buildSeries_of_pyInt_some b m (updateDict merged (rowTagPairs b.tags data)) v pref n hn,
          hps]
      · rw [List.filter_cons, hm]
        simp only [Option.isSome_some, if_pos, List.map_cons]
        exact congrArg _ hnames

theorem parseLoop_points_tags (b : SeriesBuilder) (data : Dict) (pref : String)
    (pairs : List (String × String)) (M : Dict)
    (hcomp : tagComprehension data b.tags = Except.ok pairs)
    (hM : updateDict M pairs = M) :
    ∀ ms : List String, ∀ merged : Dict, updateDict merged pairs = M →
      ∀ ps : List SeriesPoint, b.parseLoop data pref merged ms = Except.ok ps →
        ∀ p ∈ ps, p.tags = fromPairs M := by
  intro ms
  induction ms with
  | nil =>
    intro merged _ ps h p hp
    rw [parseLoop_nil] at h
    cases h
    simp at hp
  | cons m ms ih =>
    intro merged hmerged ps h p hp
    rw [parseLoop_cons] at h
    cases hm : List.lookup m data with
    | none =>
      simp only [hm] at h
      exact ih merged hmerged ps h p hp
    | some v =>
      simp only [hm, hcomp] at h
      cases hpy : pyInt v with
      | none =>
        simp only [buildSeries_of_pyInt_none b m (updateDict merged pairs) v pref hpy] at h
        cases h
      | some n =>
        simp only [buildSeries_of_pyInt_some b m (updateDict merged pairs) v pref n hpy] at h
        cases hrec : b.parseLoop data pref (updateDict merged pairs) ms with
        | error e =>
          simp only [hrec] at h
          cases h
        | ok rest =>
          simp only [hrec] at h
          cases h
          rcases List.mem_cons.mp hp with rfl | hp2
          · show fromPairs (updateDict merged pairs) = fromPairs M
            rw [hmerged]
          · refine ih (updateDict merged pairs) ?_ rest hrec p hp2
            rw [hmerged]
            exact hM

theorem parseLoop_valueError (b : SeriesBuilder) (data : Dict) (pref : String)
    (htags : ∀ t ∈ b.tags, (List.lookup t data).isSome = true) :
    ∀ ms : List String, (∃ m ∈ ms, ∃ v, List.lookup m data = some v ∧ pyInt v = none) →
      ∀ merged : Dict,
        ∃ w, b.parseLoop data pref merged ms = Except.error (PyErr.valueError w) := by
  intro ms
  induction ms with
  | nil =>
    intro hbad merged
    obtain ⟨m, hm, _⟩ := hbad
    simp at hm
  | cons m ms ih =>
    intro hbad merged
    cases hm : List.lookup m data with
    | none =>
      have h2 : ∃ x ∈ ms, ∃ v, List.lookup x data = some v ∧ pyInt v = none := by
        obtain ⟨x, hx, v, hxv, hpy⟩ := hbad
        rcases List.mem_cons.mp hx with rfl | hx2
        · rw [hm] at hxv; cases hxv
        · exact ⟨x, hx2, v, hxv, hpy⟩
      obtain ⟨w, hw⟩ := ih h2 merged
      refine ⟨w, ?_⟩
      rw [parseLoop_cons]
      simp only [hm]
      exact hw
    | some v =>
      cases hpy : pyInt v with
      | none =>
        refine ⟨v, ?_⟩
        rw [parseLoop_cons]
        simp only [hm, tagComprehension_ok_of_present data b.tags htags,
          buildSeries_of_pyInt_none b m (updateDict merged (rowTagPairs b.tags data)) v pref hpy]
      | some n =>
        have h2 : ∃ x ∈ ms, ∃ w, List.lookup x data = some w ∧ pyInt w = none := by
          obtain ⟨x, hx, w, hxw, hpyw⟩ := hbad
          rcases List.mem_cons.mp hx with rfl | hx2
          · rw [hm] at hxw
            cases hxw
            rw [hpy] at hpyw
            cases hpyw
          · exact ⟨x, hx2, w, hxw, hpyw⟩
        obtain ⟨w, hw⟩ := ih h2 (updateDict merged (rowTagPairs b.tags data))
        refine ⟨w, ?_⟩
        rw [parseLoop_cons]
        simp only [hm, tagComprehension_ok_of_present data b.tags htags,
          buildSeries_of_pyInt_some b m (updateDict merged (rowTagPairs b.tags data)) v pref n hpy,
          hw]

theorem parseLoop_keyErr (b : SeriesBuilder) (data : Dict) (pref : String)
    (hmiss : ∃ t ∈ b.tags, List.lookup t data = none) :
    ∀ ms : List String, (∃ m ∈ ms, (List.lookup m data).isSome = true) →
      ∀ merged : Dict,
        ∃ k, b.parseLoop data pref merged ms = Except.error (PyErr.keyError k) := by
  intro ms
  induction ms with
  | nil =>
    intro hpres merged
    obtain ⟨m, hm, _⟩ := hpres
    simp at hm
  | cons m ms ih =>
    intro hpres merged
    cases hm : List.lookup m data with
    | none =>
      have h2 : ∃ x ∈ ms, (List.lookup x data).isSome = true := by
        obtain ⟨x, hx, hxs⟩ := hpres
        rcases List.mem_cons.mp hx with rfl | hx2
        · rw [hm] at hxs; cases hxs
        · exact ⟨x, hx2, hxs⟩
      obtain ⟨k, hk⟩ := ih h2 merged
      refine ⟨k, ?_⟩
      rw [parseLoop_cons]
      simp only [hm]
      exact hk
    | some v =>
      obtain ⟨k, hk⟩ := tagComprehension_error_of_missing data b.tags hmiss
      refine ⟨k, ?_⟩
      rw [parseLoop_cons]
      simp only [hm, hk]

theorem parseLoop_isOk_congr (b c : SeriesBuilder) (data : Dict) (pref : String)
    (htags : b.tags = c.tags) :
    ∀ ms : List String, ∀ merged merged2 : Dict,
      exOk (b.parseLoop data pref merged ms) = exOk (c.parseLoop data pref merged2 ms) := by
  intro ms
  induction ms with
  | nil => intro merged merged2; rfl
  | cons m ms ih =>
    intro merged merged2
    rw [parseLoop_cons, parseLoop_cons]
    cases hm : List.lookup m data with
    | none => simp only [hm]; exact ih merged merged2
    | some v =>
      simp only [hm, htags]
      cases hc : tagComprehension data c.tags with
      | error e => rfl
      | ok pairs =>
        simp only []
        cases hpy : pyInt v with
        | none =>
          rw [buildSeries_of_pyInt_none b m (updateDict merged pairs) v pref hpy,
            buildSeries_of_pyInt_none c m (updateDict merged2 pairs) v pref hpy]
        | some n =>
          rw [buildSeries_of_pyInt_some b m (updateDict merged pairs) v pref n hpy,
            buildSeries_of_pyInt_some c m (updateDict merged2 pairs) v pref n hpy]
          have := ih (updateDict merged pairs) (updateDict merged2 pairs)
          cases hrec : b.parseLoop data pref (updateDict merged pairs) ms with
          | error e =>
            rw [hrec] at this
            cases hrec2 : c.parseLoop data pref (updateDict merged2 pairs) ms with
            | error e2 => rfl
            | ok rest2 =>
              rw [hrec2] at this
              cases this
          | ok rest =>
            rw [hrec] at this
            cases hrec2 : c.parseLoop data pref (updateDict merged2 pairs) ms with
            | error e2 =>
              rw [hrec2] at this
              cases this
            | ok rest2 => rfl

/- Lemmas about the collectors and the orchestration loop. -/

theorem parse_isOk_congr (b c : SeriesBuilder) (data : Dict) (pref : String)
    (htags : b.tags = c.tags) (hms : b.measurements = c.measurements) :
    exOk (b.parse data pref) = exOk (c.parse data pref) := by
  unfold SeriesBuilder.parse
  rw [hms]
  exact parseLoop_isOk_congr b c data pref htags c.measurements b.extras_tags c.extras_tags

theorem parse_valueError (b : SeriesBuilder) (data : Dict) (pref : String)
    (htags : ∀ t ∈ b.tags, (List.lookup t data).isSome = true)
    (hbad : ∃ m ∈ b.measurements, ∃ v, List.lookup m data = some v ∧ pyInt v = none) :
    ∃ w, b.parse data pref = Except.error (PyErr.valueError w) :=
  parseLoop_valueError b data pref htags b.measurements hbad b.extras_tags

theorem poolCollect_isOk_congr (b c : SeriesBuilder) (lines : List String)
    (htags : b.tags = c.tags) (hms : b.measurements = c.measurements) :
    exOk (poolCollect b lines) = exOk (poolCollect c lines) :=
  mapE_isOk_congr _ _ (dictReader lines)
    (fun r _ => parse_isOk_congr b c r "pool" htags hms)

theorem collectAll_cons (pb vb : SeriesBuilder) (a : Appliance) (rest : List Appliance) :
    collectAll pb vb (a :: rest) =
      match poolCollect (pb.addExtrasTags a.tags) a.poolLines with
      | Except.error e => Except.error e
      | Except.ok ps =>
        match volumeCollect (vb.addExtrasTags a.tags) a.volLines a.volDetails with
        | Except.error e => Except.error e
        | Except.ok vs =>
          match collectAll (pb.addExtrasTags a.tags) (vb.addExtrasTags a.tags) rest with
          | Except.error e => Except.error e
          | Except.ok more => Except.ok (ps ++ vs ++ more) := rfl

theorem collectAll_not_ok (a : Appliance) (tgs msr : List String)
    (hpool : ∀ b : SeriesBuilder, b.tags = tgs → b.measurements = msr →
      exOk (poolCollect b a.poolLines) = false) :
    ∀ (apps : List Appliance) (pb vb : SeriesBuilder), a ∈ apps →
      pb.tags = tgs → pb.measurements = msr →
      exOk (collectAll pb vb apps) = false := by
  intro apps
  induction apps with
  | nil =>
    intro pb vb ha
    simp at ha
  | cons a2 rest ih =>
    intro pb vb ha htags hms
    rw [collectAll_cons]
    rcases List.mem_cons.mp ha with rfl | ha2
    · have hp : exOk (poolCollect (pb.addExtrasTags a.tags) a.poolLines) = false :=
        hpool _ htags hms
      cases hpc : poolCollect (pb.addExtrasTags a.tags) a.poolLines with
      | error e => rfl
      | ok ps =>
        rw [hpc] at hp
        cases hp
    · cases hpc : poolCollect (pb.addExtrasTags a2.tags) a2.poolLines with
      | error e => rfl
      | ok ps =>
        cases hvc : volumeCollect (vb.addExtrasTags a2.tags) a2.volLines a2.volDetails with
        | error e => rfl
        | ok vs =>
          have hrest := ih (pb.addExtrasTags a2.tags) (vb.addExtrasTags a2.tags) ha2 htags hms
          cases hrec : collectAll (pb.addExtrasTags a2.tags) (vb.addExtrasTags a2.tags) rest with
          | error e => rfl
          | ok more =>
            rw [hrec] at hrest
            cases hrest

theorem writtenPoints_empty_of_not_ok (pb vb : SeriesBuilder) (apps : List Appliance)
    (h : exOk (collectAll pb vb apps) = false) : writtenPoints pb vb apps = [] := by
  unfold writtenPoints
  cases hc : collectAll pb vb apps with
  | error e => rfl
  | ok s =>
    rw [hc] at h
    cases h

/- Claim theorems. -/

theorem measurementName_inj (pr a b2 : String) (h : pr ++ "_" ++ a = pr ++ "_" ++ b2) :
    a = b2 := by
  have hd : (pr ++ "_").data ++ a.data = (pr ++ "_").data ++ b2.data := by
    rw [← String.data_append, ← String.data_append, h]
  exact String.ext (List.append_cancel_left hd)

/-- C8: parse is deterministic and idempotent in its inputs: calling it twice
on the same builder state with the identical row, prefix (and hence the same
extra tags and fixed timestamp) yields structurally identical results, and the
call leaves the builder state unchanged. -/
theorem c8_parse_deterministic (b : SeriesBuilder) (data : Dict) (pref : String) :
    ((b.parseSt data pref).2.parseSt data pref).1 = (b.parseSt data pref).1 ∧
    (b.parseSt data pref).2 = b :=
  ⟨rfl, rfl⟩

/-- C9: with the INFLUXDB section loaded, an empty `database` value falls back
to the name `svc2influxdb`, and a non-empty value is used unchanged. -/
theorem c9_database_default (sec : Dict) (conf : InfluxConf)
    (hok : getInfluxdb sec = Except.ok conf) :
    (List.lookup "database" sec = some "" → conf.database = "svc2influxdb") ∧
    (∀ s : String, List.lookup "database" sec = some s → s ≠ "" → conf.database = s) := by
  unfold getInfluxdb at hok
  cases h1 : List.lookup "address" sec with
  | none =>
    simp only [h1] at hok
    cases hok
  | some addr =>
    simp only [h1] at hok
    cases h2 : List.lookup "username" sec with
    | none =>
      simp only [h2] at hok
      cases hok
    | some user =>
      simp only [h2] at hok
      cases h3 : List.lookup "password" sec with
      | none =>
        simp only [h3] at hok
        cases hok
      | some pass =>
        simp only [h3] at hok
        cases h4 : List.lookup "database" sec with
        | none =>
          simp only [h4] at hok
          cases hok
        | some db =>
          simp only [h4] at hok
          cases hok
          constructor
          · intro hemp
            have hdb : db = "" := Option.some.inj hemp
            show (if db ≠ "" then db else "svc2influxdb") = "svc2influxdb"
            rw [hdb]
            simp
          · intro s hs hne
            have hdb : db = s := Option.some.inj hs
            show (if db ≠ "" then db else "svc2influxdb") = s
            rw [hdb, if_pos hne]

/-- C9 witness: a configuration with an empty database value loads with the
default name svc2influxdb. -/
theorem c9_database_default_witness :
    getInfluxdb [("address", "h"), ("username", ""), ("password", "p"), ("database", "")] =
      Except.ok (InfluxConf.mk "h" none (some "p") "svc2influxdb") ∧
    (InfluxConf.mk "h" none (some "p") "svc2influxdb").database = "svc2influxdb" :=
  ⟨by decide,
    (c9_database_default [("address", "h"), ("username", ""), ("password", "p"), ("database", "")]
      (InfluxConf.mk "h" none (some "p") "svc2influxdb") (by decide)).1 (by decide)⟩

/-- C5 counterexample: the claim promises that every integer fixed timestamp is
carried by every produced point, but a configured fixed timestamp of 0 is
dropped by the Python truthiness test `if self._fixed_time:`, so the produced
point carries no timestamp at all. -/
theorem c5_zero_timestamp_counterexample :
    (poolSeriesBuilder (some 0)).parse [("name", "p0"), ("id", "1"), ("capacity", "7")] "pool" =
      Except.ok [⟨"pool_capacity", [("name", "p0"), ("id", "1")], [("value", 7)], none⟩] ∧
    (none : Option Int) ≠ some 0 := by
  exact ⟨by decide, by decide⟩

/-- C5 amended: for every nonzero integer fixed timestamp configured on a
builder, every SeriesPoint produced by parse carries exactly that timestamp
(so points built from different rows by builders sharing the fixed timestamp
carry identical timestamps); with no fixed timestamp configured the points
carry no explicit timestamp.  (As configured value 0 is dropped by the
truthiness test, the original claim holds only for nonzero timestamps.) -/
theorem c5_fixed_timestamp_amended (b c : SeriesBuilder) (data data2 : Dict)
    (pr pr2 : String) (t : Int) (ps qs : List SeriesPoint)
    (hb : b.fixed_time = some t) (ht : t ≠ 0)
    (hps : b.parse data pr = Except.ok ps)
    (hc : c.fixed_time = none)
    (hqs : c.parse data2 pr2 = Except.ok qs) :
    (∀ p ∈ ps, p.time = some t) ∧ (∀ q ∈ qs, q.time = none) := by
  constructor
  · intro p hp
    have h := parseLoop_points_time b data pr b.measurements b.extras_tags ps hps p hp
    rw [h, hb, pyTime, if_neg ht]
  · intro q hq
    have h := parseLoop_points_time c data2 pr2 c.measurements c.extras_tags qs hqs q hq
    rw [h, hc, pyTime]

/-- C5 witness: a pool point built with fixed timestamp 5 carries time 5 and a
point built without a fixed timestamp carries none. -/
theorem c5_fixed_timestamp_witness :
    SeriesPoint.time ⟨"pool_capacity", [("name", "p0"), ("id", "1")], [("value", 7)], some 5⟩ =
      some 5 ∧
    SeriesPoint.time ⟨"pool_capacity", [("name", "p0"), ("id", "1")], [("value", 7)], none⟩ =
      none := by
  have h := c5_fixed_timestamp_amended (poolSeriesBuilder (some 5)) (poolSeriesBuilder none)
    [("name", "p0"), ("id", "1"), ("capacity", "7")] [("name", "p0"), ("id", "1"), ("capacity", "7")]
    "pool" "pool" 5
    [⟨"pool_capacity", [("name", "p0"), ("id", "1")], [("value", 7)], some 5⟩]
    [⟨"pool_capacity", [("name", "p0"), ("id", "1")], [("value", 7)], none⟩]
    rfl (by decide) (by decide) rfl (by decide)
  exact ⟨h.1 _ (List.mem_singleton_self _), h.2 _ (List.mem_singleton_self _)⟩

theorem detailRows_eq (lines : List String)
    (hform : ∀ l ∈ lines, l ≠ "" → (splitComma l).length = 2) :
    (lines.map csvRow).filter (fun r => r ≠ []) =
      (lines.filter (fun l => l ≠ "")).map (fun l => splitComma l) := by
  induction lines with
  | nil => rfl
  | cons l ls ih =>
    have ihl := ih (fun x hx hne => hform x (List.mem_cons_of_mem _ hx) hne)
    by_cases hl : l = ""
    · subst hl
      simp only [List.map_cons, show csvRow "" = [] from rfl, List.filter_cons]
      simpa using ihl
    · have h2 : csvRow l = splitComma l := by simp [csvRow, hl]
      have hne : splitComma l ≠ [] := by
        intro h0
        have hlen := hform l (List.mem_cons_self _ _) hl
        rw [h0] at hlen
        cases hlen
      simp only [List.map_cons, h2, List.filter_cons]
      simp only [show (decide (splitComma l ≠ [])) = true from by simpa using hne, if_pos]
      simp only [show (decide (l ≠ "")) = true from by simpa using hl, if_pos]
      rw [List.map_cons, ihl]

theorem mapE_pickTwo (rows : List (List String))
    (h : ∀ r ∈ rows, ∃ k v : String, r = [k, v]) :
    mapE (fun r => match r with
      | a :: b :: _ => Except.ok ((a, b) : String × String)
      | _ => Except.error PyErr.indexError) rows =
      Except.ok (rows.map (fun r => (r.headD "", r.getD 1 ""))) := by
  induction rows with
  | nil => rfl
  | cons r rs ih =>
    obtain ⟨k, v, rfl⟩ := h r (List.mem_cons_self _ _)
    have hrec := ih (fun x hx => h x (List.mem_cons_of_mem _ hx))
    simp only [mapE, hrec]
    simp [List.getD]

/-- C6: on volume-detail output where every nonblank line has exactly the form
`fieldName,value` (two comma-separated fields, with the field names distinct),
the detail parser succeeds and maps each field name to its value; blank lines
contribute nothing. -/
theorem c6_detail_parsing (lines : List String)
    (hform : ∀ l ∈ lines, l ≠ "" → (splitComma l).length = 2)
    (hnd : ((lines.filter (fun l => l ≠ "")).map (fun l => (splitComma l).headD "")).Nodup) :
    ∃ row, getVolumeDetails lines = Except.ok row ∧
      ∀ l ∈ lines, ∀ k v : String, splitComma l = [k, v] → List.lookup k row = some v := by
  have hrows := detailRows_eq lines hform
  have hall : ∀ r ∈ (lines.filter (fun l => l ≠ "")).map (fun l => splitComma l),
      ∃ k v : String, r = [k, v] := by
    intro r hr
    obtain ⟨l, hl, rfl⟩ := List.mem_map.mp hr
    have hlmem := List.mem_filter.mp hl
    exact List.length_eq_two.mp (hform l hlmem.1 (by simpa using hlmem.2))
  refine ⟨fromPairs (((lines.filter (fun l => l ≠ "")).map (fun l => splitComma l)).map
      (fun r => (r.headD "", r.getD 1 ""))), ?_, ?_⟩
  · unfold getVolumeDetails
    rw [hrows, mapE_pickTwo _ hall]
  · intro l hl k v hsplit
    have hlne : l ≠ "" := by
      intro h0
      subst h0
      rw [show splitComma "" = [""] from by decide] at hsplit
      cases hsplit
    have hkv : (k, v) ∈ ((lines.filter (fun l => l ≠ "")).map (fun l => splitComma l)).map
        (fun r => (r.headD "", r.getD 1 "")) := by
      refine List.mem_map.mpr ⟨[k, v], ?_, by simp [List.getD]⟩
      refine List.mem_map.mpr ⟨l, ?_, hsplit⟩
      exact List.mem_filter.mpr ⟨hl, by simpa using hlne⟩
    have hkeys : ((((lines.filter (fun l => l ≠ "")).map (fun l => splitComma l)).map
        (fun r => (r.headD "", r.getD 1 ""))).map Prod.fst).Nodup := by
      rw [List.map_map, List.map_map]
      simpa [Function.comp] using hnd
    exact lookup_updateDict_of_functional _ k v
      (functional_of_nodupKeys _ hkeys) hkv []

/-- C6 witness: the spec's example input parses to the expected row. -/
theorem c6_detail_parsing_witness :
    getVolumeDetails ["id,1", "", "capacity,1024", "name,vol1"] =
      Except.ok [("id", "1"), ("capacity", "1024"), ("name", "vol1")] ∧
    List.lookup "id" [("id", "1"), ("capacity", "1024"), ("name", "vol1")] = some "1" ∧
    List.lookup "capacity" [("id", "1"), ("capacity", "1024"), ("name", "vol1")] = some "1024" ∧
    List.lookup "name" [("id", "1"), ("capacity", "1024"), ("name", "vol1")] = some "vol1" := by
  obtain ⟨row, hok, hlook⟩ :=
    c6_detail_parsing ["id,1", "", "capacity,1024", "name,vol1"] (by decide) (by decide)
  have hconc : getVolumeDetails ["id,1", "", "capacity,1024", "name,vol1"] =
      Except.ok [("id", "1"), ("capacity", "1024"), ("name", "vol1")] := by decide
  have hrow : row = [("id", "1"), ("capacity", "1024"), ("name", "vol1")] := by
    rw [hconc] at hok
    cases hok
    rfl
  subst hrow
  refine ⟨hconc, ?_, ?_, ?_⟩
  · exact hlook "id,1" (by simp) "id" "1" (by decide)
  · exact hlook "capacity,1024" (by simp) "capacity" "1024" (by decide)
  · exact hlook "name,vol1" (by simp) "name" "vol1" (by decide)

theorem svcTags_eq (sect : String) (kvs : Dict) :
    svcTags sect kvs = updateDict [("svc", sect)]
      (kvs.filter (fun p => p.1 ∉ ["name", "address", "login", "password"])) := by
  show List.foldl _ _ kvs = _
  suffices h : ∀ init : Dict,
      kvs.foldl (fun acc p =>
        if p.1 ∉ ["name", "address", "login", "password"] then setItem acc p.1 p.2 else acc)
        init =
      updateDict init
        (kvs.filter (fun p => p.1 ∉ ["name", "address", "login", "password"])) from
    h [("svc", sect)]
  induction kvs with
  | nil => intro init; rfl
  | cons p ps ih =>
    intro init
    by_cases hp : p.1 ∉ ["name", "address", "login", "password"]
    · rw [List.foldl_cons, if_pos hp, List.filter_cons, if_pos (by simpa using hp),
        updateDict_cons]
      exact ih (setItem init p.1 p.2)
    · rw [List.foldl_cons, if_neg hp, List.filter_cons, if_neg (by simpa using hp)]
      exact ih init

theorem getSvcOne_ok_tags (sect : String) (kvs : Dict) (e : Equipment)
    (h : getSvcOne sect kvs = Except.ok e) : e.tags = svcTags sect kvs := by
  unfold getSvcOne at h
  cases h1 : List.lookup "address" kvs with
  | none => simp only [h1] at h; cases h
  | some addr =>
    simp only [h1] at h
    cases h2 : List.lookup "login" kvs with
    | none => simp only [h2] at h; cases h
    | some login =>
      simp only [h2] at h
      cases h3 : List.lookup "password" kvs with
      | none => simp only [h3] at h; cases h
      | some pw =>
        simp only [h3] at h
        cases h
        rfl

/-- C7 counterexample: the claim says every key other than address, login and
password becomes an extra tag, but the code also excludes the key `name`: a
section with a `name` item yields tags without it. -/
theorem c7_name_excluded_counterexample :
    getSvcOne "SVC1"
      [("address", "10.0.0.1"), ("login", "a"), ("password", "b"), ("name", "custom")] =
      Except.ok ⟨[("svc", "SVC1")], "10.0.0.1", "a", "b"⟩ ∧
    List.lookup "name" [("svc", "SVC1")] = none := ⟨by decide, by decide⟩

/-- C7 amended: every key of an appliance section other than name, address,
login and password becomes an extra tag on the appliance descriptor, alongside
the tag `svc` holding the section name (the key `name` is excluded as well,
unlike what the claim says). -/
theorem c7_extra_tags_amended (sect : String) (kvs : Dict) (e : Equipment)
    (hnd : (kvs.map Prod.fst).Nodup)
    (hok : getSvcOne sect kvs = Except.ok e) :
    (∀ kv ∈ kvs, kv.1 ∉ ["name", "address", "login", "password"] →
      List.lookup kv.1 e.tags = some kv.2) ∧
    ("svc" ∉ kvs.map Prod.fst → List.lookup "svc" e.tags = some sect) := by
  rw [getSvcOne_ok_tags sect kvs e hok, svcTags_eq]
  constructor
  · intro kv hkv hexcl
    have hmem : kv ∈ kvs.filter (fun p => p.1 ∉ ["name", "address", "login", "password"]) :=
      List.mem_filter.mpr ⟨hkv, by simpa using hexcl⟩
    have hkeys : ((kvs.filter (fun p =>
        p.1 ∉ ["name", "address", "login", "password"])).map Prod.fst).Nodup :=
      List.Nodup.sublist (List.Sublist.map Prod.fst (List.filter_sublist kvs)) hnd
    exact lookup_updateDict_of_functional _ kv.1 kv.2
      (functional_of_nodupKeys _ hkeys) hmem [("svc", sect)]
  · intro hsvc
    rw [lookup_updateDict_notmem "svc" _ ?_ [("svc", sect)]]
    · simp
    · intro hmm
      obtain ⟨p, hp, hps⟩ := List.mem_map.mp hmm
      exact hsvc (List.mem_map.mpr ⟨p, (List.mem_filter.mp hp).1, hps⟩)

/-- C7 witness: the spec's example section with extra key site=dc1 produces
tags {svc: SVC1, site: dc1}. -/
theorem c7_extra_tags_witness :
    getSvcOne "SVC1"
      [("address", "10.0.0.1"), ("login", "a"), ("password", "b"), ("site", "dc1")] =
      Except.ok ⟨[("svc", "SVC1"), ("site", "dc1")], "10.0.0.1", "a", "b"⟩ ∧
    List.lookup "site" [("svc", "SVC1"), ("site", "dc1")] = some "dc1" ∧
    List.lookup "svc" [("svc", "SVC1"), ("site", "dc1")] = some "SVC1" := by
  have h := c7_extra_tags_amended "SVC1"
    [("address", "10.0.0.1"), ("login", "a"), ("password", "b"), ("site", "dc1")]
    ⟨[("svc", "SVC1"), ("site", "dc1")], "10.0.0.1", "a", "b"⟩ (by decide) (by decide)
  exact ⟨by decide, h.1 ("site", "dc1") (by decide) (by decide), h.2 (by decide)⟩

theorem filter_name_count (pr m : String) (ms : List String) (ps : List SeriesPoint)
    (hnames : ps.map SeriesPoint.measurement = ms.map (fun x => pr ++ "_" ++ x)) :
    (ps.filter (fun p => p.measurement == pr ++ "_" ++ m)).length = ms.count m := by
  have e1 : (ps.filter (fun p => p.measurement == pr ++ "_" ++ m)).length
      = ((ps.map SeriesPoint.measurement).filter (fun s => s == pr ++ "_" ++ m)).length := by
    rw [List.filter_map, List.length_map]
    rfl
  rw [e1, hnames, List.filter_map, List.length_map]
  have hcong : ∀ x ∈ ms, ((fun s => s == pr ++ "_" ++ m) ∘ (fun x => pr ++ "_" ++ x)) x
      = (fun x => x == m) x := by
    intro x _
    by_cases hx : x = m
    · subst hx
      simp
    · have hne : pr ++ "_" ++ x ≠ pr ++ "_" ++ m := fun hc => hx (measurementName_inj pr x m hc)
      simp [hx, hne]
  rw [List.filter_congr hcong, List.count_eq_countP, List.countP_eq_length_filter]

/-- C1 counterexample: the claim promises one SeriesPoint for the present
measurement `capacity` whenever all tag names are present, but a row whose
capacity value is not integer-convertible makes parse raise the ValueError the
spec calls ParseError, so no point at all is produced. -/
theorem c1_parse_error_counterexample :
    (poolSeriesBuilder none).parse [("name", "p0"), ("id", "1"), ("capacity", "N/A")] "pool" =
      Except.error (PyErr.valueError "N/A") ∧
    List.lookup "capacity" [("name", "p0"), ("id", "1"), ("capacity", "N/A")] = some "N/A" ∧
    List.lookup "name" [("name", "p0"), ("id", "1"), ("capacity", "N/A")] = some "p0" ∧
    List.lookup "id" [("name", "p0"), ("id", "1"), ("capacity", "N/A")] = some "1" :=
  ⟨by decide, by decide, by decide, by decide⟩

/-- C1 amended: for every row whose schema tag names are all present and whose
values at present schema measurement names are all integer-convertible, parse
produces exactly one SeriesPoint named prefix_measurementName per schema
measurement name present as a key, and zero per absent name.  (The original
claim omitted integer convertibility; without it parse raises instead.) -/
theorem c1_points_per_measurement_amended (b : SeriesBuilder) (data : Dict) (pr : String)
    (hnd : b.measurements.Nodup)
    (htags : ∀ t ∈ b.tags, (List.lookup t data).isSome = true)
    (hvals : ∀ m ∈ b.measurements, intableAt data m = true) :
    ∃ ps, b.parse data pr = Except.ok ps ∧
      (∀ m ∈ b.measurements, (List.lookup m data).isSome = true →
        (ps.filter (fun p => p.measurement == pr ++ "_" ++ m)).length = 1) ∧
      (∀ m ∈ b.measurements, List.lookup m data = none →
        (ps.filter (fun p => p.measurement == pr ++ "_" ++ m)).length = 0) := by
  obtain ⟨ps, hps, hnames⟩ := parseLoop_names b data pr htags b.measurements hvals b.extras_tags
  refine ⟨ps, hps, ?_, ?_⟩
  · intro m hm hpres
    rw [filter_name_count pr m (b.measurements.filter (fun x => (List.lookup x data).isSome))
      ps hnames]
    refine List.count_eq_one_of_mem (List.Nodup.filter _ hnd) ?_
    exact List.mem_filter.mpr ⟨hm, hpres⟩
  · intro m hm habs
    rw [filter_name_count pr m (b.measurements.filter (fun x => (List.lookup x data).isSome))
      ps hnames]
    refine List.count_eq_zero_of_not_mem ?_
    intro hmem
    have := (List.mem_filter.mp hmem).2
    rw [habs] at this
    cases this

/-- C1 witness: a pool row with capacity present yields exactly one
pool_capacity point and no pool_free_capacity point. -/
theorem c1_points_per_measurement_witness :
    (poolSeriesBuilder none).parse [("name", "p0"), ("id", "1"), ("capacity", "100")] "pool" =
      Except.ok [⟨"pool_capacity", [("name", "p0"), ("id", "1")], [("value", 100)], none⟩] ∧
    ([(⟨"pool_capacity", [("name", "p0"), ("id", "1")], [("value", 100)], none⟩ :
        SeriesPoint)].filter (fun p => p.measurement == "pool" ++ "_" ++ "capacity")).length = 1 ∧
    ([(⟨"pool_capacity", [("name", "p0"), ("id", "1")], [("value", 100)], none⟩ :
        SeriesPoint)].filter
      (fun p => p.measurement == "pool" ++ "_" ++ "free_capacity")).length = 0 := by
  obtain ⟨ps, hps, hone, hzero⟩ := c1_points_per_measurement_amended (poolSeriesBuilder none)
    [("name", "p0"), ("id", "1"), ("capacity", "100")] "pool"
    (by decide) (by decide) (by decide)
  have hconc : (poolSeriesBuilder none).parse
      [("name", "p0"), ("id", "1"), ("capacity", "100")] "pool" =
      Except.ok [⟨"pool_capacity", [("name", "p0"), ("id", "1")], [("value", 100)], none⟩] := by
    decide
  have hpseq : ps = [⟨"pool_capacity", [("name", "p0"), ("id", "1")], [("value", 100)], none⟩] := by
    rw [hconc] at hps
    cases hps
    rfl
  subst hpseq
  exact ⟨hconc, hone "capacity" (by decide) (by decide), hzero "free_capacity" (by decide) (by decide)⟩

theorem parseLoop_ok_of_comp_error (b : SeriesBuilder) (data : Dict) (pref : String)
    (e : PyErr) (hc : tagComprehension data b.tags = Except.error e) :
    ∀ ms : List String, ∀ merged : Dict, ∀ ps : List SeriesPoint,
      b.parseLoop data pref merged ms = Except.ok ps → ps = [] := by
  intro ms
  induction ms with
  | nil =>
    intro merged ps h
    rw [parseLoop_nil] at h
    cases h
    rfl
  | cons m ms ih =>
    intro merged ps h
    rw [parseLoop_cons] at h
    cases hm : List.lookup m data with
    | none =>
      simp only [hm] at h
      exact ih merged ps h
    | some v =>
      simp only [hm, hc] at h
      cases h

/-- C2: every SeriesPoint produced by parse carries tags equal to a copy of
the extra tags overwritten/extended with the row values of the schema tag
names; on any key shared between extra tags and row tags the row value wins;
and the builder's stored extra tags are unchanged by parse. -/
theorem c2_tag_merge (b : SeriesBuilder) (data : Dict) (pr : String) (ps : List SeriesPoint)
    (hnd : (b.extras_tags.map Prod.fst).Nodup)
    (hok : b.parse data pr = Except.ok ps) :
    (∀ p ∈ ps, p.tags = updateDict b.extras_tags (rowTagPairs b.tags data)) ∧
    (∀ t ∈ b.tags, ∀ p ∈ ps, List.lookup t p.tags = List.lookup t data) ∧
    (b.parseSt data pr).2.extras_tags = b.extras_tags := by
  cases hc : tagComprehension data b.tags with
  | error e =>
    have hempty : ps = [] :=
      parseLoop_ok_of_comp_error b data pr e hc b.measurements b.extras_tags ps hok
    subst hempty
    exact ⟨fun p hp => absurd hp (by simp), fun t ht p hp => absurd hp (by simp), rfl⟩
  | ok pairs =>
    obtain ⟨hall, hpairs⟩ := tagComprehension_ok_elim data b.tags pairs hc
    subst hpairs
    have hfun := rowTagPairs_functional b.tags data
    have hM := updateDict_idem (rowTagPairs b.tags data) hfun b.extras_tags
    have hmain : ∀ p ∈ ps, p.tags =
        fromPairs (updateDict b.extras_tags (rowTagPairs b.tags data)) :=
      parseLoop_points_tags b data pr (rowTagPairs b.tags data)
        (updateDict b.extras_tags (rowTagPairs b.tags data)) hc hM
        b.measurements b.extras_tags rfl ps hok
    have hcopy : fromPairs (updateDict b.extras_tags (rowTagPairs b.tags data)) =
        updateDict b.extras_tags (rowTagPairs b.tags data) :=
      fromPairs_eq_self _ (nodupKeys_updateDict (rowTagPairs b.tags data) b.extras_tags hnd)
    have hfirst : ∀ p ∈ ps, p.tags = updateDict b.extras_tags (rowTagPairs b.tags data) := by
      intro p hp
      rw [hmain p hp, hcopy]
    refine ⟨hfirst, ?_, rfl⟩
    intro t ht p hp
    obtain ⟨v, hv⟩ := Option.isSome_iff_exists.mp (hall t ht)
    have hmem : (t, v) ∈ rowTagPairs b.tags data := by
      refine List.mem_filterMap.mpr ⟨t, ht, ?_⟩
      rw [hv]
      rfl
    rw [hfirst p hp, hv]
    exact lookup_updateDict_of_functional (rowTagPairs b.tags data) t v hfun hmem b.extras_tags

/-- C2 witness: with extra tags {env: prod, name: OLD} and a row providing
name, id and capacity, the produced point carries the merged tags with the
row's name value overriding the extra tag. -/
theorem c2_tag_merge_witness :
    ((poolSeriesBuilder none).addExtrasTags [("env", "prod"), ("name", "OLD")]).parse
      [("name", "poolA"), ("id", "1"), ("capacity", "100")] "pool" =
      Except.ok [⟨"pool_capacity", [("env", "prod"), ("name", "poolA"), ("id", "1")],
        [("value", 100)], none⟩] ∧
    [("env", "prod"), ("name", "poolA"), ("id", "1")] =
      updateDict [("env", "prod"), ("name", "OLD")]
        (rowTagPairs ["name", "id"] [("name", "poolA"), ("id", "1"), ("capacity", "100")]) ∧
    List.lookup "name" [("env", "prod"), ("name", "poolA"), ("id", "1")] =
      List.lookup "name" [("name", "poolA"), ("id", "1"), ("capacity", "100")] := by
  have hconc : ((poolSeriesBuilder none).addExtrasTags [("env", "prod"), ("name", "OLD")]).parse
      [("name", "poolA"), ("id", "1"), ("capacity", "100")] "pool" =
      Except.ok [⟨"pool_capacity", [("env", "prod"), ("name", "poolA"), ("id", "1")],
        [("value", 100)], none⟩] := by decide
  have h := c2_tag_merge ((poolSeriesBuilder none).addExtrasTags [("env", "prod"), ("name", "OLD")])
    [("name", "poolA"), ("id", "1"), ("capacity", "100")] "pool"
    [⟨"pool_capacity", [("env", "prod"), ("name", "poolA"), ("id", "1")], [("value", 100)], none⟩]
    (by decide) hconc
  refine ⟨hconc, ?_, ?_⟩
  · exact h.1 _ (List.mem_singleton_self _)
  · exact h.2.1 "name" (by decide) _ (List.mem_singleton_self _)

/-- C10: a row containing at least one schema measurement name but missing
some schema tag name makes parse fail with a KeyError instead of producing any
points or skipping the missing tag. -/
theorem c10_missing_tag_keyerror (b : SeriesBuilder) (data : Dict) (pr : String)
    (hm : ∃ m ∈ b.measurements, (List.lookup m data).isSome = true)
    (ht : ∃ t ∈ b.tags, List.lookup t data = none) :
    ∃ k, b.parse data pr = Except.error (PyErr.keyError k) :=
  parseLoop_keyErr b data pr ht b.measurements hm b.extras_tags

/-- C10 witness: a pool row with capacity present but no id key fails with
KeyError on id. -/
theorem c10_missing_tag_keyerror_witness :
    exOk ((poolSeriesBuilder none).parse [("name", "p0"), ("capacity", "5")] "pool") = false ∧
    (poolSeriesBuilder none).parse [("name", "p0"), ("capacity", "5")] "pool" =
      Except.error (PyErr.keyError "id") := by
  constructor
  · obtain ⟨k, hk⟩ := c10_missing_tag_keyerror (poolSeriesBuilder none)
      [("name", "p0"), ("capacity", "5")] "pool"
      ⟨"capacity", by decide, by decide⟩ ⟨"id", by decide, by decide⟩
    rw [hk]
    rfl
  · decide

/-- C3 counterexample: the claim says collect() returns a flat sequence whose
elements are single SeriesPoints, but a pool listing with one row carrying two
present measurements yields a one-element result whose single element is a
two-point sub-sequence (the points of that raw row), so elements are per-row
groups, not single points. -/
theorem c3_flat_sequence_counterexample :
    poolCollect (poolSeriesBuilder none)
      ["name,id,capacity,free_capacity", "poolA,1,100,50"] =
      Except.ok [[⟨"pool_capacity", [("name", "poolA"), ("id", "1")], [("value", 100)], none⟩,
        ⟨"pool_free_capacity", [("name", "poolA"), ("id", "1")], [("value", 50)], none⟩]] ∧
    ([[⟨"pool_capacity", [("name", "poolA"), ("id", "1")], [("value", 100)], none⟩,
        ⟨"pool_free_capacity", [("name", "poolA"), ("id", "1")], [("value", 50)], none⟩]] :
      List (List SeriesPoint)).length = 1 ∧
    ([[⟨"pool_capacity", [("name", "poolA"), ("id", "1")], [("value", 100)], none⟩,
        ⟨"pool_free_capacity", [("name", "poolA"), ("id", "1")], [("value", 50)], none⟩]] :
      List (List SeriesPoint)).flatten.length = 2 :=
  ⟨by decide, by decide, by decide⟩

/-- C3 amended: collect() returns an ordered sequence of sub-sequences of
SeriesPoints, one element per raw row — for the pool collector the i-th
element is exactly the builder's parse output for the i-th DictReader row, and
for the volume collector there is likewise one element per listing row; the
write loop then writes one sub-sequence per call. -/
theorem c3_collect_groups_amended (pb vb : SeriesBuilder) (lines listing : List String)
    (details : String → List String) (s s2 : List (List SeriesPoint))
    (hp : poolCollect pb lines = Except.ok s)
    (hv : volumeCollect vb listing details = Except.ok s2) :
    s.length = (dictReader lines).length ∧
    (∀ i (h1 : i < (dictReader lines).length) (h2 : i < s.length),
      pb.parse ((dictReader lines).get ⟨i, h1⟩) "pool" = Except.ok (s.get ⟨i, h2⟩)) ∧
    s2.length = (dictReader listing).length := by
  refine ⟨mapE_ok_length _ (dictReader lines) s hp, ?_, ?_⟩
  · intro i h1 h2
    exact mapE_ok_get _ (dictReader lines) s hp i h1 h2
  · unfold volumeCollect at hv
    cases hvd : mapE (fun r =>
        match List.lookup "id" r with
        | none => Except.error (PyErr.keyError "id")
        | some i => getVolumeDetails (details i)) (dictReader listing) with
    | error e =>
      rw [hvd] at hv
      cases hv
    | ok vds =>
      rw [hvd] at hv
      rw [mapE_ok_length _ vds s2 hv]
      exact mapE_ok_length _ (dictReader listing) vds hvd

/-- C3 witness: a one-row pool listing and a one-volume listing produce one
sub-sequence each, the pool one equal to the parse of its row. -/
theorem c3_collect_groups_witness :
    poolCollect (poolSeriesBuilder none) ["name,id,capacity", "p0,1,5"] =
      Except.ok [[⟨"pool_capacity", [("name", "p0"), ("id", "1")], [("value", 5)], none⟩]] ∧
    ([[⟨"pool_capacity", [("name", "p0"), ("id", "1")], [("value", 5)], none⟩]] :
      List (List SeriesPoint)).length =
      (dictReader ["name,id,capacity", "p0,1,5"]).length ∧
    ([[⟨"volume_capacity", [("name", "v"), ("id", "7"), ("vdisk_UID", "X")],
        [("value", 3)], none⟩]] : List (List SeriesPoint)).length =
      (dictReader ["id,name", "7,v"]).length := by
  have h := c3_collect_groups_amended (poolSeriesBuilder none) (volumeSeriesBuilder none)
    ["name,id,capacity", "p0,1,5"] ["id,name", "7,v"]
    (fun _ => ["name,v", "id,7", "vdisk_UID,X", "capacity,3"])
    [[⟨"pool_capacity", [("name", "p0"), ("id", "1")], [("value", 5)], none⟩]]
    [[⟨"volume_capacity", [("name", "v"), ("id", "7"), ("vdisk_UID", "X")],
      [("value", 3)], none⟩]]
    (by decide) (by decide)
  exact ⟨by decide, h.1, h.2.2⟩

/-- C4: a pool row with all tag names present whose value at some schema
measurement name is not integer-convertible makes parse fail with the
ValueError the spec calls ParseError; and since the write loop runs only after
every appliance has been collected, a run containing such a row writes no
point of the batch at all. -/
theorem c4_parse_error_aborts (pb vb : SeriesBuilder) (apps : List Appliance)
    (a : Appliance) (row : Dict)
    (hmem : a ∈ apps) (hrow : row ∈ dictReader a.poolLines)
    (htags : ∀ t ∈ pb.tags, (List.lookup t row).isSome = true)
    (hbad : ∃ m ∈ pb.measurements, ∃ v, List.lookup m row = some v ∧ pyInt v = none) :
    (∃ w, pb.parse row "pool" = Except.error (PyErr.valueError w)) ∧
    writtenPoints pb vb apps = [] := by
  refine ⟨parse_valueError pb row "pool" htags hbad, ?_⟩
  apply writtenPoints_empty_of_not_ok
  refine collectAll_not_ok a pb.tags pb.measurements ?_ apps pb vb hmem rfl rfl
  intro b hbt hbm
  show exOk (mapE (fun r => b.parse r "pool") (dictReader a.poolLines)) = false
  refine mapE_not_ok_of_mem _ row (dictReader a.poolLines) hrow ?_
  have hcongr := parse_isOk_congr b pb row "pool" (by rw [hbt]) (by rw [hbm])
  obtain ⟨w, hw⟩ := parse_valueError pb row "pool" htags hbad
  rw [hcongr, hw]
  rfl

/-- C4 witness: one appliance whose pool listing has capacity N/A yields an
aborted run with an empty written batch. -/
theorem c4_parse_error_aborts_witness :
    writtenPoints (poolSeriesBuilder none) (volumeSeriesBuilder none)
      [⟨[("site", "dc1")], ["name,id,capacity", "p0,1,N/A"], [], fun _ => []⟩] = [] ∧
    (poolSeriesBuilder none).parse
      (fromPairs [("name", "p0"), ("id", "1"), ("capacity", "N/A")]) "pool" =
      Except.error (PyErr.valueError "N/A") := by
  have h := c4_parse_error_aborts (poolSeriesBuilder none) (volumeSeriesBuilder none)
    [⟨[("site", "dc1")], ["name,id,capacity", "p0,1,N/A"], [], fun _ => []⟩]
    ⟨[("site", "dc1")], ["name,id,capacity", "p0,1,N/A"], [], fun _ => []⟩
    (fromPairs [("name", "p0"), ("id", "1"), ("capacity", "N/A")])
    (List.mem_singleton_self _) (by decide) (by decide)
    ⟨"capacity", by decide, "N/A", by decide, by decide⟩
  exact ⟨h.2, by decide⟩
